import Mathlib

/-!
Shallow embedding of the stat-progression / synergy engine of
`scripts/fight-club.py` (repository `daily-progress`).

Python dictionaries are modelled as association lists (insertion order
preserved, as in CPython); JSON integers as `Int`/`Nat`; optional JSON
fields as `Option`.  Fallible operations (a `KeyError` on an unguarded
dictionary lookup) are modelled with `Option`, `none` standing for the
raised exception.
-/

namespace FightClub

/-- Lookup in an association list with `String` keys
(models `d.get(k)` / `k in d` on a Python dict). -/
def lookupStr {α : Type} : List (String × α) → String → Option α
  | [], _ => none
  | (k, v) :: t, key => if k = key then some v else lookupStr t key

/-- In-place update of an existing key's value (models `d[k] = v` when
`k` is already present; insertion order is preserved). -/
def setStr {α : Type} : List (String × α) → String → α → List (String × α)
  | [], _, _ => []
  | (k, v) :: t, key, nv => if k = key then (k, nv) :: t else (k, v) :: setStr t key nv

/-- Lookup in an association list with `Nat` keys (models
`rules['levels'].get(str(level), {})`; the JSON keys are decimal strings,
modelled directly as the numbers they denote). -/
def lookupNat {α : Type} : List (Nat × α) → Nat → Option α
  | [], _ => none
  | (k, v) :: t, key => if k = key then some v else lookupNat t key

/-- One alter-ego character record (`alter-egos/<archetype>.json`). -/
structure Character where
  name : String
  level : Nat
  title : String
  currentXp : Int
  xpToNextLevel : Option Nat
  currentHealth : Int
  maxHealth : Int
  currentEnergy : Int
  maxEnergy : Int
  abilities : List (String × Int)
deriving Repr, DecidableEq

/-- One entry of the `levels` table in `xp-rules.json`:
`{"xp_to_next_level": ..., "title": ...}`, each field optional. -/
structure LevelEntry where
  xpToNextLevel : Option Nat
  title : Option String
deriving Repr, DecidableEq

/-- `xp-rules.json`: the level table and the
`health_energy_overflow` configuration (both overflow fields optional,
defaulted at the use site exactly as `overflow_config.get(...)` does). -/
structure XpRules where
  levels : List (Nat × LevelEntry)
  overflowResetPct : Option Int
  overflowBonus : Option Int
deriving Repr, DecidableEq

/-- `xp_rules.get('levels', {}).get(str(level), {})`. -/
def lookupLevel (rules : XpRules) (level : Nat) : LevelEntry :=
  (lookupNat rules.levels level).getD ⟨none, none⟩

/-- A requested delta bundle (`changes` argument of `apply_stat_changes`):
`none` models an absent key. -/
structure DeltaRequest where
  xp : Option Int
  health : Option Int
  energy : Option Int
  abilities : List (String × Int)
deriving Repr, DecidableEq

/-- The bundle of deltas returned by `apply_stat_changes`
(`delta_applied`). -/
structure DeltaApplied where
  xp : Int
  health : Int
  energy : Int
  abilities : List (String × Int)
deriving Repr, DecidableEq

/-- The four character fields the level-up `while` loop of
`apply_stat_changes` reads or writes. -/
structure LevelProgress where
  currentXp : Int
  level : Nat
  title : String
  xpToNextLevel : Option Nat
deriving Repr, DecidableEq

/-- The level-up `while` loop of `apply_stat_changes`
(fight-club.py lines 325-338): while the threshold is truthy
(present and nonzero) and `current_xp` reaches it, subtract it,
increment the level, and take title / next threshold from the new
level's table entry (title falls back to the previous title when the
new entry has none). -/
def levelCascade (rules : XpRules) (p : LevelProgress) (t : Option Nat) : LevelProgress :=
  match t with
  | none => p
  | some tv =>
    if h : tv ≠ 0 ∧ (tv : Int) ≤ p.currentXp then
      let nl := lookupLevel rules (p.level + 1)
      levelCascade rules
        { currentXp := p.currentXp - (tv : Int),
          level := p.level + 1,
          title := nl.title.getD p.title,
          xpToNextLevel := nl.xpToNextLevel }
        nl.xpToNextLevel
    else p
termination_by p.currentXp.toNat
decreasing_by
  omega

/-- Write a `LevelProgress` back into the character record. -/
def Character.withProgress (c : Character) (p : LevelProgress) : Character :=
  { c with currentXp := p.currentXp, level := p.level,
           title := p.title, xpToNextLevel := p.xpToNextLevel }

/-- XP phase of `apply_stat_changes` (lines 314-338): fires only when the
`xp` key is present and nonzero; returns the updated character and the
recorded `delta_applied['xp']`.  The initial threshold is looked up in
the level table at the (unchanged) current level; the stored
`xp_to_next_level` is rewritten only inside the loop. -/
def applyXpPhase (rules : XpRules) (c : Character) (changes : DeltaRequest) :
    Character × Int :=
  match changes.xp with
  | none => (c, 0)
  | some v =>
    if v = 0 then (c, 0)
    else
      let p0 : LevelProgress :=
        { currentXp := c.currentXp + v, level := c.level,
          title := c.title, xpToNextLevel := c.xpToNextLevel }
      (c.withProgress (levelCascade rules p0 (lookupLevel rules c.level).xpToNextLevel), v)

/-- Health phase of `apply_stat_changes` (lines 340-359): add the
requested change; if the result reaches `max_health`, set health to the
raw `overflow_reset_percentage` value (default 20) and add the
`overflow_bonus_to_other_stat` (default 10) to energy.  Returns the
updated character, the recorded health delta and the energy bonus
recorded into `delta_applied['energy']`. -/
def applyHealthPhase (rules : XpRules) (c : Character) (changes : DeltaRequest) :
    Character × Int × Int :=
  match changes.health with
  | none => (c, 0, 0)
  | some v =>
    if v = 0 then (c, 0, 0)
    else
      let c1 := { c with currentHealth := c.currentHealth + v }
      if c1.maxHealth ≤ c1.currentHealth then
        let rp := rules.overflowResetPct.getD 20
        let ob := rules.overflowBonus.getD 10
        ({ c1 with currentHealth := rp, currentEnergy := c1.currentEnergy + ob }, v, ob)
      else (c1, v, 0)

/-- Energy phase of `apply_stat_changes` (lines 361-380), symmetric to
the health phase: the bonus goes to health.  Returns the updated
character, the recorded energy delta and the health bonus recorded into
`delta_applied['health']`. -/
def applyEnergyPhase (rules : XpRules) (c : Character) (changes : DeltaRequest) :
    Character × Int × Int :=
  match changes.energy with
  | none => (c, 0, 0)
  | some v =>
    if v = 0 then (c, 0, 0)
    else
      let c1 := { c with currentEnergy := c.currentEnergy + v }
      if c1.maxEnergy ≤ c1.currentEnergy then
        let rp := rules.overflowResetPct.getD 20
        let ob := rules.overflowBonus.getD 10
        ({ c1 with currentEnergy := rp, currentHealth := c1.currentHealth + ob }, v, ob)
      else (c1, v, 0)

/-- Ability phase of `apply_stat_changes` (lines 382-390): nonzero
requested ability deltas are added when the ability exists on the
character and recorded; unknown abilities are skipped with a warning. -/
def applyAbilities (c : Character) :
    List (String × Int) → Character × List (String × Int)
  | [] => (c, [])
  | (name, v) :: rest =>
    if v = 0 then applyAbilities c rest
    else
      match lookupStr c.abilities name with
      | some cur =>
        let c' := { c with abilities := setStr c.abilities name (cur + v) }
        let r := applyAbilities c' rest
        (r.1, (name, v) :: r.2)
      | none => applyAbilities c rest

/-- `apply_stat_changes(ego_data, changes, xp_rules)` (lines 295-392):
XP phase with level-up cascade, health phase with overflow, energy phase
with overflow, ability phase; returns the mutated character and the
`delta_applied` bundle. -/
def applyStatChanges (rules : XpRules) (c : Character) (changes : DeltaRequest) :
    Character × DeltaApplied :=
  let (c1, dxp) := applyXpPhase rules c changes
  let (c2, dh, deBonus) := applyHealthPhase rules c1 changes
  let (c3, de, dhBonus) := applyEnergyPhase rules c2 changes
  let (c4, dabs) := applyAbilities c3 changes.abilities
  (c4, { xp := dxp, health := dh + dhBonus, energy := deBonus + de, abilities := dabs })

/-- Stat-application core of `mark_mission_failed` (line 1697): the
mission's `on_failure` bundle is passed to `apply_stat_changes`
unchanged, with no clamping before or after. -/
def markMissionFailedStats (rules : XpRules) (c : Character) (onFailure : DeltaRequest) :
    Character × DeltaApplied :=
  applyStatChanges rules c onFailure

/-- Stat-application core of `mark_mission_completed` (line 1603): the
mission's `on_complete` bundle is passed to `apply_stat_changes`. -/
def markMissionCompletedStats (rules : XpRules) (c : Character) (onComplete : DeltaRequest) :
    Character × DeltaApplied :=
  applyStatChanges rules c onComplete

/-- The `missed_checkin_penalty` configuration of
`daily-progress-rules.json`: each field optional, defaulted at the use
site (`threshold_days` 3, `xp` -5, `health` -3, `energy` -3,
`abilities_percent` -2). -/
structure PenaltyRules where
  thresholdDays : Option Int
  xp : Option Int
  health : Option Int
  energy : Option Int
  abilitiesPercent : Option Int
deriving Repr, DecidableEq

/-- Per-character body of the penalty loop in
`apply_missed_checkin_penalty` (lines 697-712): xp/health/energy floored
at 0, each ability reduced by `max(1, int(value * |percent| / 100))`
(Python's `int(...)` truncates toward zero, `Int.tdiv` here) and floored
at 0. -/
def applyPenaltyToChar (pr : PenaltyRules) (c : Character) : Character :=
  let xpPen := pr.xp.getD (-5)
  let healthPen := pr.health.getD (-3)
  let energyPen := pr.energy.getD (-3)
  let pct := pr.abilitiesPercent.getD (-2)
  { c with
    currentXp := max 0 (c.currentXp + xpPen),
    currentHealth := max 0 (c.currentHealth + healthPen),
    currentEnergy := max 0 (c.currentEnergy + energyPen),
    abilities := c.abilities.map fun p =>
      (p.1, max 0 (p.2 - max 1 ((p.2 * |pct|).tdiv 100))) }

/-- `calculate_days_since_last_checkin` (lines 635-644): no check-in
file at all yields 999, otherwise the whole-day difference between
today and the latest check-in date (dates modelled as day numbers). -/
def calculateDaysSinceLastCheckin (latestCheckinDay : Option Int) (today : Int) : Int :=
  match latestCheckinDay with
  | none => 999
  | some d => today - d

/-- `apply_missed_checkin_penalty` (lines 657-746), restricted to its
state effect on the characters: missing rules abort with `false`; below
the threshold nothing changes and `false` is returned; otherwise every
character receives the penalty and `true` is returned. -/
def applyMissedCheckinPenalty (rules : Option PenaltyRules)
    (latestCheckinDay : Option Int) (today : Int) (chars : List Character) :
    Bool × List Character :=
  match rules with
  | none => (false, chars)
  | some pr =>
    let daysMissed := calculateDaysSinceLastCheckin latestCheckinDay today
    let threshold := pr.thresholdDays.getD 3
    if daysMissed < threshold then (false, chars)
    else (true, chars.map (applyPenaltyToChar pr))

/-- Per-habit streak state inside
`synergy.json["fight_club"]["daily_progress"]["habits"]`. -/
structure HabitState where
  streak : Nat
  bestStreak : Nat
  totalSuccess : Nat
  totalFailures : Nat
deriving Repr, DecidableEq

/-- `update_habit_streak_in_synergy` (lines 749-778), on the habits
mapping: a habit absent from the mapping is left unchanged and `false`
is returned; success increments `streak` and `total_success` and bumps
`best_streak`; failure resets `streak` to 0 and increments
`total_failures`.  Returns the new mapping and the function's boolean
result (`milestone_reached and success`). -/
def updateHabitStreakInSynergy (habits : List (String × HabitState))
    (habitName : String) (success : Bool) :
    List (String × HabitState) × Bool :=
  match lookupStr habits habitName with
  | none => (habits, false)
  | some h =>
    if success then
      let s' := h.streak + 1
      (setStr habits habitName
        { h with streak := s', totalSuccess := h.totalSuccess + 1,
                 bestStreak := if h.bestStreak < s' then s' else h.bestStreak },
       true)
    else
      (setStr habits habitName
        { h with streak := 0, totalFailures := h.totalFailures + 1 },
       false)

/-- `daily-progress-rules.json` reward configuration:
`habit_success_reward.habits` (habit → `xp_per_success`, default 0
applied at the use site, so modelled as `Nat` values) and
`streak_milestone_bonus.milestones` (streak length → `xp_bonus`). -/
structure RewardRules where
  habitXp : List (String × Nat)
  milestones : List (Nat × Nat)
deriving Repr, DecidableEq

/-- Python's `str.lower()`, modelled character by character (the habit
results are ASCII). -/
def pyLower (s : String) : String :=
  ⟨s.data.map Char.toLower⟩

/-- One iteration of the habit loop of `apply_habit_rewards`
(lines 798-821): update the streak, and on success add the per-success
XP, re-read the habit's streak with the unguarded lookup
`synergy[...]["habits"][habit_name]["streak"]` — `none` models the
`KeyError` raised when the habit has no entry — and add the milestone
bonus when the new streak is a milestone key.  Returns the new habits
mapping, the XP contributed, and the milestone events
`(habit, streak, bonus)` recorded. -/
def processHabit (rr : RewardRules) (habits : List (String × HabitState))
    (habitName : String) (result : String) :
    Option (List (String × HabitState) × Nat × List (String × Nat × Nat)) :=
  let success := pyLower result = "success"
  let habits1 := (updateHabitStreakInSynergy habits habitName success).1
  if success then
    let xpReward := (lookupStr rr.habitXp habitName).getD 0
    match lookupStr habits1 habitName with
    | none => none
    | some h =>
      match lookupNat rr.milestones h.streak with
      | some bonus => some (habits1, xpReward + bonus, [(habitName, h.streak, bonus)])
      | none => some (habits1, xpReward, [])
  else some (habits1, 0, [])

/-- The habit loop of `apply_habit_rewards` over the whole check-in's
`habit_results`, threading the habits mapping and accumulating the XP
total and milestone events; a `KeyError` anywhere aborts. -/
def processHabits (rr : RewardRules) (habits : List (String × HabitState)) :
    List (String × String) →
    Option (List (String × HabitState) × Nat × List (String × Nat × Nat))
  | [] => some (habits, 0, [])
  | (name, result) :: rest =>
    match processHabit rr habits name result with
    | none => none
    | some (habits1, xp, ms) =>
      match processHabits rr habits1 rest with
      | none => none
      | some (habits2, xpRest, msRest) => some (habits2, xp + xpRest, ms ++ msRest)

/-- XP application of `apply_habit_rewards` to one alter-ego
(lines 837-856): add the earned total and run the same level-up loop as
`apply_stat_changes`. -/
def applyHabitXpToChar (rules : XpRules) (totalXp : Nat) (c : Character) : Character :=
  let p0 : LevelProgress :=
    { currentXp := c.currentXp + (totalXp : Int), level := c.level,
      title := c.title, xpToNextLevel := c.xpToNextLevel }
  c.withProgress (levelCascade rules p0 (lookupLevel rules c.level).xpToNextLevel)

/-- Result of a completed `apply_habit_rewards` run: the updated habits
mapping, the (possibly rewarded) characters, the XP total and the
milestone events. -/
structure HabitRewardOutcome where
  habits : List (String × HabitState)
  chars : List Character
  totalXp : Nat
  milestones : List (String × Nat × Nat)
deriving Repr, DecidableEq

/-- `apply_habit_rewards(habit_results)` (lines 781-892), restricted to
its effect on the habits mapping and the characters: process every
habit, then, when the earned total is positive, add it to every
character with level-ups.  `none` models the unhandled `KeyError`. -/
def applyHabitRewards (rules : XpRules) (rr : RewardRules)
    (habits : List (String × HabitState)) (habitResults : List (String × String))
    (chars : List Character) :
    Option HabitRewardOutcome :=
  match processHabits rr habits habitResults with
  | none => none
  | some (habits1, totalXp, ms) =>
    if 0 < totalXp then
      some ⟨habits1, chars.map (applyHabitXpToChar rules totalXp), totalXp, ms⟩
    else some ⟨habits1, chars, totalXp, ms⟩

/-- One entry of `history.json`; only the `history_index` field matters
to the ledger logic, and `entry.get('history_index', 0)` defaults a
missing field to 0. -/
structure HistoryEntry where
  historyIndex : Option Nat
deriving Repr, DecidableEq

/-- `entry.get('history_index', 0)`. -/
def entryIndex (e : HistoryEntry) : Nat :=
  e.historyIndex.getD 0

/-- `get_next_history_index()` (lines 280-292): a missing or corrupt
`history.json` (`none`) and an empty ledger both give 1; otherwise
`max(entry.get('history_index', 0) for entry in history) + 1`. -/
def getNextHistoryIndex (stored : Option (List HistoryEntry)) : Nat :=
  match stored with
  | none => 1
  | some history =>
    if history.isEmpty then 1
    else (history.map entryIndex).foldl max 0 + 1

/-- `record_history(event_data)` (lines 395-415): append the entry to
the stored ledger (a missing or corrupt file is treated as empty). -/
def recordHistory (stored : Option (List HistoryEntry)) (e : HistoryEntry) :
    List HistoryEntry :=
  (stored.getD []) ++ [e]

/-- One stat-affecting operation's ledger interaction: the caller builds
its entry with `'history_index': get_next_history_index()` and then
calls `record_history` (e.g. lines 1611+1630, 719+740, 868+886). -/
def appendLedgerEvent (history : List HistoryEntry) : List HistoryEntry :=
  recordHistory (some history) ⟨some (getNextHistoryIndex (some history))⟩

/-- `n` successive stat-affecting operations starting from a given
ledger. -/
def appendLedgerEvents (history : List HistoryEntry) : Nat → List HistoryEntry
  | 0 => history
  | n + 1 => appendLedgerEvents (appendLedgerEvent history) n

/-- One entry of the `levels` table in `synergy-rules.json`. -/
structure SynLevelEntry where
  xpToNextLevel : Option Nat
  chapter : Option String
  description : Option String
deriving Repr, DecidableEq

/-- `synergy-rules.json`. -/
structure SynergyRules where
  levels : List (Nat × SynLevelEntry)
deriving Repr, DecidableEq

/-- `synergy_rules.get('levels', {}).get(str(level), {})`. -/
def lookupSynLevel (sr : SynergyRules) (level : Nat) : SynLevelEntry :=
  (lookupNat sr.levels level).getD ⟨none, none, none⟩

/-- The mission-count block of the synergy record. -/
structure MissionCounts where
  total : Nat
  completed : Nat
  failed : Nat
  notStarted : Nat
  inProgress : Nat
deriving Repr, DecidableEq

/-- A stored mission record, reduced to the one field the counters
read. -/
structure MissionRec where
  status : Option String
deriving Repr, DecidableEq

/-- Body of the not-completed loop of `count_missions` (lines 489-495):
`status = mission_data.get("status", "not-started")`, then
`if status in counts: counts[status] += 1` over the counter keys. -/
def countNotCompletedMission (m : MissionRec) (c : MissionCounts) : MissionCounts :=
  let status := m.status.getD "not-started"
  let c1 := { c with total := c.total + 1 }
  if status = "total" then { c1 with total := c1.total + 1 }
  else if status = "completed" then { c1 with completed := c1.completed + 1 }
  else if status = "failed" then { c1 with failed := c1.failed + 1 }
  else if status = "not-started" then { c1 with notStarted := c1.notStarted + 1 }
  else if status = "in-progress" then { c1 with inProgress := c1.inProgress + 1 }
  else c1

/-- Body of the completed loop of `count_missions` (lines 498-506):
`status = mission_data.get("status", "completed")`, counted only when
"completed" or "failed". -/
def countCompletedMission (m : MissionRec) (c : MissionCounts) : MissionCounts :=
  let status := m.status.getD "completed"
  let c1 := { c with total := c.total + 1 }
  if status = "completed" then { c1 with completed := c1.completed + 1 }
  else if status = "failed" then { c1 with failed := c1.failed + 1 }
  else c1

/-- `count_missions()` (lines 478-508) over the two mission folders. -/
def countMissions (notCompleted completed : List MissionRec) : MissionCounts :=
  let c1 := notCompleted.foldl (fun c m => countNotCompletedMission m c) ⟨0, 0, 0, 0, 0⟩
  completed.foldl (fun c m => countCompletedMission m c) c1

/-- Python's `round(x, 2)` on the exact rational value (ties and float
representation aside, a deterministic function of its input). -/
def round2 (q : ℚ) : ℚ :=
  ((round (q * 100) : ℤ) : ℚ) / 100

/-- Per-archetype branch of `calculate_synergy_stats` (lines 465-473):
the rounded mean of the ability values, left at the initial 0.0 when
the ability mapping is empty. -/
def synergyStatOf (c : Character) : ℚ :=
  if c.abilities.isEmpty then 0
  else round2 (((c.abilities.map (·.2)).sum : ℚ) / (c.abilities.length : ℚ))

/-- The derived synergy record (`synergy.json["fight_club"]`), reduced
to the fields `update_synergy` writes, plus the three reward counters. -/
structure SynergyState where
  level : Nat
  chapter : String
  description : String
  currentXp : Int
  xpToNextLevel : Option Nat
  mind : ℚ
  body : ℚ
  soul : ℚ
  totalSynergy : ℚ
  missions : MissionCounts
  rewardsTotal : Nat
  rewardsUnlocked : Nat
  rewardsLocked : Nat
deriving Repr, DecidableEq

/-- The synergy level-up `while` loop of `update_synergy`
(lines 554-573): the loop works on the local `total_xp` and
`current_level`, writing level, chapter, description, next threshold
and the residual `current_xp` into the record on every iteration. -/
def synergyCascade (sr : SynergyRules) (s : SynergyState) (level : Nat)
    (totalXp : Int) (t : Option Nat) : SynergyState :=
  match t with
  | none => s
  | some tv =>
    if _h : tv ≠ 0 ∧ (tv : Int) ≤ totalXp then
      let nl := lookupSynLevel sr (level + 1)
      synergyCascade sr
        { s with level := level + 1,
                 chapter := nl.chapter.getD "UNKNOWN",
                 description := nl.description.getD "",
                 xpToNextLevel := nl.xpToNextLevel,
                 currentXp := totalXp - (tv : Int) }
        (level + 1) (totalXp - (tv : Int)) nl.xpToNextLevel
    else s
termination_by totalXp.toNat
decreasing_by
  omega

/-- `update_synergy()` (lines 532-591) as a function of the stored
synergy record, the three alter-egos, the mission folders and the
reward counts: seed `current_xp` with the XP sum
(`calculate_synergy_xp`), run the level cascade from the stored level
(skipped when `synergy-rules.json` cannot be loaded), then overwrite
the synergy stats, `total_synergy`, mission counts and reward counts. -/
def updateSynergy (sr : Option SynergyRules) (tyler mrrobot kei : Character)
    (notCompleted completed : List MissionRec)
    (lockedCount unlockedCount : Nat) (s : SynergyState) : SynergyState :=
  let totalXp := tyler.currentXp + mrrobot.currentXp + kei.currentXp
  let s1 := { s with currentXp := totalXp }
  let s2 :=
    match sr with
    | none => s1
    | some r => synergyCascade r s1 s1.level totalXp (lookupSynLevel r s1.level).xpToNextLevel
  let mind := synergyStatOf mrrobot
  let body := synergyStatOf tyler
  let soul := synergyStatOf kei
  { s2 with
    mind := mind, body := body, soul := soul,
    totalSynergy := round2 (mind + body + soul),
    missions := countMissions notCompleted completed,
    rewardsTotal := lockedCount + unlockedCount,
    rewardsUnlocked := unlockedCount,
    rewardsLocked := lockedCount }

/-! ### Shared lemmas -/

theorem lookupStr_setStr_ne {α : Type} (l : List (String × α)) (k k' : String) (nv : α)
    (hne : k' ≠ k) : lookupStr (setStr l k nv) k' = lookupStr l k' := by
  induction l with
  | nil => rfl
  | cons hd tl ih =>
    obtain ⟨hk, hv⟩ := hd
    by_cases hhd : hk = k
    · subst hhd
      simp only [setStr, if_pos rfl, lookupStr]
      rw [if_neg (fun hc => hne hc.symm), if_neg (fun hc => hne hc.symm)]
    · simp only [setStr, if_neg hhd, lookupStr]
      by_cases hhd' : hk = k'
      · rw [if_pos hhd', if_pos hhd']
      · rw [if_neg hhd', if_neg hhd', ih]

theorem lookupStr_setStr_self {α : Type} (l : List (String × α)) (k : String) (nv : α)
    {cur : α} (hfound : lookupStr l k = some cur) :
    lookupStr (setStr l k nv) k = some nv := by
  induction l with
  | nil => simp [lookupStr] at hfound
  | cons hd tl ih =>
    obtain ⟨hk, hv⟩ := hd
    by_cases hhd : hk = k
    · simp only [setStr, if_pos hhd, lookupStr, if_pos hhd]
    · simp only [lookupStr, if_neg hhd] at hfound
      simp only [setStr, if_neg hhd, lookupStr, if_neg hhd]
      exact ih hfound

theorem mem_setStr {α : Type} (l : List (String × α)) (k : String) (nv : α)
    (p : String × α) : p ∈ setStr l k nv → p = (k, nv) ∨ p ∈ l := by
  induction l with
  | nil => intro hmem; simp [setStr] at hmem
  | cons hd tl ih =>
    intro hmem
    obtain ⟨hk, hv⟩ := hd
    by_cases hhd : hk = k
    · subst hhd
      simp only [setStr, if_true, eq_self_iff_true, ite_true, List.mem_cons] at hmem
      rcases hmem with hmem1 | hmem1
      · exact Or.inl hmem1
      · exact Or.inr (List.mem_cons_of_mem _ hmem1)
    · simp only [setStr, if_neg hhd, List.mem_cons] at hmem
      rcases hmem with hmem1 | hmem1
      · exact Or.inr (by simp [hmem1])
      · rcases ih hmem1 with hmem' | hmem'
        · exact Or.inl hmem'
        · exact Or.inr (List.mem_cons_of_mem _ hmem')

theorem levelCascade_none (rules : XpRules) (p : LevelProgress) :
    levelCascade rules p none = p := by
  rw [levelCascade]

theorem levelCascade_step (rules : XpRules) (p : LevelProgress) (tv : Nat)
    (h0 : tv ≠ 0) (hle : (tv : Int) ≤ p.currentXp) :
    levelCascade rules p (some tv) =
      levelCascade rules
        { currentXp := p.currentXp - (tv : Int),
          level := p.level + 1,
          title := (lookupLevel rules (p.level + 1)).title.getD p.title,
          xpToNextLevel := (lookupLevel rules (p.level + 1)).xpToNextLevel }
        (lookupLevel rules (p.level + 1)).xpToNextLevel := by
  rw [levelCascade, dif_pos ⟨h0, hle⟩]

theorem levelCascade_stop (rules : XpRules) (p : LevelProgress) (tv : Nat)
    (h : tv = 0 ∨ p.currentXp < (tv : Int)) :
    levelCascade rules p (some tv) = p := by
  rw [levelCascade, dif_neg]
  rintro ⟨h0, hle⟩
  rcases h with h | h
  · exact h0 h
  · omega

theorem levelCascade_xp_nonneg (rules : XpRules) (p : LevelProgress) (t : Option Nat)
    (h : 0 ≤ p.currentXp) : 0 ≤ (levelCascade rules p t).currentXp := by
  induction p, t using levelCascade.induct rules with
  | case1 p => rw [levelCascade]; exact h
  | case2 p tv hcond nl ih =>
    rw [levelCascade, dif_pos hcond]
    exact ih (by show (0:Int) ≤ p.currentXp - (tv : Int); omega)
  | case3 p tv hcond =>
    rw [levelCascade, dif_neg hcond]
    exact h

theorem applyXpPhase_preserves (rules : XpRules) (c : Character) (changes : DeltaRequest) :
    (applyXpPhase rules c changes).1.currentHealth = c.currentHealth ∧
    (applyXpPhase rules c changes).1.maxHealth = c.maxHealth ∧
    (applyXpPhase rules c changes).1.currentEnergy = c.currentEnergy ∧
    (applyXpPhase rules c changes).1.maxEnergy = c.maxEnergy ∧
    (applyXpPhase rules c changes).1.abilities = c.abilities := by
  rcases hx : changes.xp with _ | v
  · simp [applyXpPhase, hx]
  · by_cases hv : v = 0 <;>
      simp [applyXpPhase, hx, hv, Character.withProgress]

theorem applyXpPhase_progress (rules : XpRules) (c : Character) (changes : DeltaRequest)
    (v : Int) (hx : changes.xp = some v) (hv : v ≠ 0) :
    (applyXpPhase rules c changes).1.currentXp =
      (levelCascade rules ⟨c.currentXp + v, c.level, c.title, c.xpToNextLevel⟩
        (lookupLevel rules c.level).xpToNextLevel).currentXp ∧
    (applyXpPhase rules c changes).1.level =
      (levelCascade rules ⟨c.currentXp + v, c.level, c.title, c.xpToNextLevel⟩
        (lookupLevel rules c.level).xpToNextLevel).level ∧
    (applyXpPhase rules c changes).1.title =
      (levelCascade rules ⟨c.currentXp + v, c.level, c.title, c.xpToNextLevel⟩
        (lookupLevel rules c.level).xpToNextLevel).title ∧
    (applyXpPhase rules c changes).2 = v := by
  simp [applyXpPhase, hx, hv, Character.withProgress]

theorem applyHealthPhase_cases (rules : XpRules) (c : Character) (changes : DeltaRequest) :
    (changes.health.getD 0 = 0 ∧ applyHealthPhase rules c changes = (c, 0, 0)) ∨
    (∃ v, changes.health = some v ∧ v ≠ 0 ∧
      ((c.currentHealth + v < c.maxHealth ∧
        applyHealthPhase rules c changes =
          ({ c with currentHealth := c.currentHealth + v }, v, 0)) ∨
       (c.maxHealth ≤ c.currentHealth + v ∧
        applyHealthPhase rules c changes =
          ({ c with currentHealth := rules.overflowResetPct.getD 20,
                    currentEnergy := c.currentEnergy + rules.overflowBonus.getD 10 }, v,
           rules.overflowBonus.getD 10)))) := by
  rcases hh : changes.health with _ | v
  · exact Or.inl ⟨by simp [hh], by simp [applyHealthPhase, hh]⟩
  · by_cases hv : v = 0
    · exact Or.inl ⟨by simp [hh, hv], by simp [applyHealthPhase, hh, hv]⟩
    · refine Or.inr ⟨v, rfl, hv, ?_⟩
      by_cases hover : c.maxHealth ≤ c.currentHealth + v
      · exact Or.inr ⟨hover, by simp [applyHealthPhase, hh, hv, hover]⟩
      · exact Or.inl ⟨by omega, by simp [applyHealthPhase, hh, hv, hover]⟩

theorem applyEnergyPhase_cases (rules : XpRules) (c : Character) (changes : DeltaRequest) :
    (changes.energy.getD 0 = 0 ∧ applyEnergyPhase rules c changes = (c, 0, 0)) ∨
    (∃ v, changes.energy = some v ∧ v ≠ 0 ∧
      ((c.currentEnergy + v < c.maxEnergy ∧
        applyEnergyPhase rules c changes =
          ({ c with currentEnergy := c.currentEnergy + v }, v, 0)) ∨
       (c.maxEnergy ≤ c.currentEnergy + v ∧
        applyEnergyPhase rules c changes =
          ({ c with currentEnergy := rules.overflowResetPct.getD 20,
                    currentHealth := c.currentHealth + rules.overflowBonus.getD 10 }, v,
           rules.overflowBonus.getD 10)))) := by
  rcases hh : changes.energy with _ | v
  · exact Or.inl ⟨by simp [hh], by simp [applyEnergyPhase, hh]⟩
  · by_cases hv : v = 0
    · exact Or.inl ⟨by simp [hh, hv], by simp [applyEnergyPhase, hh, hv]⟩
    · refine Or.inr ⟨v, rfl, hv, ?_⟩
      by_cases hover : c.maxEnergy ≤ c.currentEnergy + v
      · exact Or.inr ⟨hover, by simp [applyEnergyPhase, hh, hv, hover]⟩
      · exact Or.inl ⟨by omega, by simp [applyEnergyPhase, hh, hv, hover]⟩

theorem applyAbilities_preserves (l : List (String × Int)) (c : Character) :
    (applyAbilities c l).1.currentXp = c.currentXp ∧
    (applyAbilities c l).1.level = c.level ∧
    (applyAbilities c l).1.title = c.title ∧
    (applyAbilities c l).1.xpToNextLevel = c.xpToNextLevel ∧
    (applyAbilities c l).1.currentHealth = c.currentHealth ∧
    (applyAbilities c l).1.maxHealth = c.maxHealth ∧
    (applyAbilities c l).1.currentEnergy = c.currentEnergy ∧
    (applyAbilities c l).1.maxEnergy = c.maxEnergy := by
  induction l generalizing c with
  | nil => simp [applyAbilities]
  | cons hd tl ih =>
    obtain ⟨n, v⟩ := hd
    by_cases hv : v = 0
    · simpa [applyAbilities, hv] using ih c
    · cases hl : lookupStr c.abilities n with
      | none => simpa [applyAbilities, hv, hl] using ih c
      | some cur =>
        simpa [applyAbilities, hv, hl] using
          ih { c with abilities := setStr c.abilities n (cur + v) }

theorem applyStatChanges_eq (rules : XpRules) (c : Character) (changes : DeltaRequest) :
    applyStatChanges rules c changes =
      ((applyAbilities (applyEnergyPhase rules (applyHealthPhase rules
          (applyXpPhase rules c changes).1 changes).1 changes).1 changes.abilities).1,
       { xp := (applyXpPhase rules c changes).2,
         health := (applyHealthPhase rules (applyXpPhase rules c changes).1 changes).2.1 +
           (applyEnergyPhase rules (applyHealthPhase rules
             (applyXpPhase rules c changes).1 changes).1 changes).2.2,
         energy := (applyHealthPhase rules (applyXpPhase rules c changes).1 changes).2.2 +
           (applyEnergyPhase rules (applyHealthPhase rules
             (applyXpPhase rules c changes).1 changes).1 changes).2.1,
         abilities := (applyAbilities (applyEnergyPhase rules (applyHealthPhase rules
           (applyXpPhase rules c changes).1 changes).1 changes).1 changes.abilities).2 }) := by
  rfl

theorem ledger_foldl_max_range (k : Nat) : (List.range' 1 k).foldl max 0 = k := by
  induction k with
  | zero => rfl
  | succ n ih =>
    rw [List.range'_concat, List.foldl_append, ih]
    simp only [List.foldl_cons, List.foldl_nil]
    omega

theorem getNextHistoryIndex_some (l : List HistoryEntry) :
    getNextHistoryIndex (some l) =
      if l.isEmpty then 1 else (l.map entryIndex).foldl max 0 + 1 := rfl

theorem appendLedgerEvents_indices (n : Nat) :
    ∀ (l : List HistoryEntry) (k : Nat), l.map entryIndex = List.range' 1 k →
      (appendLedgerEvents l n).map entryIndex = List.range' 1 (k + n) := by
  induction n with
  | zero => intro l k h; simpa [appendLedgerEvents] using h
  | succ m ih =>
    intro l k h
    have hnext : getNextHistoryIndex (some l) = k + 1 := by
      rw [getNextHistoryIndex_some]
      rcases l with _ | ⟨e, t⟩
      · have hk : k = 0 := by
          cases k with
          | zero => rfl
          | succ k' => simp [List.range'_succ] at h
        simp [hk]
      · rw [if_neg (by simp), h, ledger_foldl_max_range]
    have hstep : (appendLedgerEvent l).map entryIndex = List.range' 1 (k + 1) := by
      show (l ++ [HistoryEntry.mk (some (getNextHistoryIndex (some l)))]).map entryIndex =
        List.range' 1 (k + 1)
      rw [List.map_append, h, hnext, List.range'_concat]
      simp [entryIndex, Nat.add_comm]
    have hrec := ih (appendLedgerEvent l) (k + 1) hstep
    show (appendLedgerEvents (appendLedgerEvent l) m).map entryIndex = List.range' 1 (k + (m + 1))
    rw [show k + (m + 1) = (k + 1) + m by omega]
    exact hrec

/-- C8: every History Ledger append assigns index (max existing
`history_index` over all stored entries, defaulting to 0) + 1, shared
globally across event types; a missing or corrupt ledger is treated as
empty with next index 1; starting from an empty ledger the indices after
any sequence of stat-affecting operations are exactly 1, 2, ..., n —
strictly increasing by 1 with no gaps or repeats. -/
theorem history_indices_strictly_increasing :
    getNextHistoryIndex none = 1 ∧
    getNextHistoryIndex (some []) = 1 ∧
    (∀ l : List HistoryEntry, l ≠ [] →
      getNextHistoryIndex (some l) = (l.map entryIndex).foldl max 0 + 1) ∧
    (∀ n : Nat, (appendLedgerEvents [] n).map entryIndex = List.range' 1 n) := by
  refine ⟨rfl, rfl, ?_, ?_⟩
  · intro l hl
    rw [getNextHistoryIndex_some, if_neg (by simpa [List.isEmpty_iff] using hl)]
  · intro n
    simpa using appendLedgerEvents_indices n [] 0 (by simp)

theorem history_indices_strictly_increasing_witness :
    getNextHistoryIndex (some [⟨some 5⟩, ⟨none⟩]) = 6 ∧
    (appendLedgerEvents [] 3).map entryIndex = [1, 2, 3] := by
  constructor
  · rw [history_indices_strictly_increasing.2.2.1 [⟨some 5⟩, ⟨none⟩] (by decide)]
    rfl
  · rw [history_indices_strictly_increasing.2.2.2 3]
    rfl

/-- C9 counterexample: with no check-in record the elapsed days are the
constant 999, not effectively unlimited — a configured threshold of 1000
never triggers the penalty, refuting "for every configured threshold, the
penalty is guaranteed to trigger". -/
theorem missed_checkin_threshold_1000_never_triggers :
    (applyMissedCheckinPenalty (some ⟨some 1000, none, none, none, none⟩) none 0
      [⟨"Tyler", 1, "Novice", 0, none, 50, 100, 50, 100, []⟩]).1 = false := by
  rfl

theorem applyMissedCheckinPenalty_some (pr : PenaltyRules)
    (latest : Option Int) (today : Int) (chars : List Character) :
    applyMissedCheckinPenalty (some pr) latest today chars =
      if calculateDaysSinceLastCheckin latest today < pr.thresholdDays.getD 3
      then (false, chars)
      else (true, chars.map (applyPenaltyToChar pr)) := rfl

/-- C9 (amended): `maybeApplyPenalty` computes elapsed whole days between
the last check-in date and today; when no check-in record exists the
elapsed days are the fixed value 999, so the penalty triggers for every
configured threshold ≤ 999 (default 3) but not beyond; when elapsed days
are below the threshold it is a no-op returning false, and otherwise it
applies penalties to every character and returns true. -/
theorem missed_checkin_trigger_logic (pr : PenaltyRules)
    (latest : Option Int) (today : Int) (chars : List Character)
    (hthr : pr.thresholdDays.getD 3 ≤ 999) :
    calculateDaysSinceLastCheckin none today = 999 ∧
    applyMissedCheckinPenalty (some pr) none today chars =
      (true, chars.map (applyPenaltyToChar pr)) ∧
    (calculateDaysSinceLastCheckin latest today < pr.thresholdDays.getD 3 →
      applyMissedCheckinPenalty (some pr) latest today chars = (false, chars)) ∧
    (pr.thresholdDays.getD 3 ≤ calculateDaysSinceLastCheckin latest today →
      applyMissedCheckinPenalty (some pr) latest today chars =
        (true, chars.map (applyPenaltyToChar pr))) := by
  refine ⟨rfl, ?_, ?_, ?_⟩
  · rw [applyMissedCheckinPenalty_some,
      if_neg (by simp only [calculateDaysSinceLastCheckin]; omega)]
  · intro hlt
    rw [applyMissedCheckinPenalty_some, if_pos hlt]
  · intro hge
    rw [applyMissedCheckinPenalty_some, if_neg (by omega)]

theorem missed_checkin_trigger_logic_witness :
    applyMissedCheckinPenalty (some ⟨none, none, none, none, none⟩) none 0 [] = (true, []) ∧
    applyMissedCheckinPenalty (some ⟨none, none, none, none, none⟩) (some 0) 1 [] = (false, []) := by
  constructor
  · exact (missed_checkin_trigger_logic ⟨none, none, none, none, none⟩ none 0 []
      (by decide)).2.1
  · exact (missed_checkin_trigger_logic ⟨none, none, none, none, none⟩ (some 0) 1 []
      (by decide)).2.2.1 (by decide)

/-- C10: check-in processing is not total — a habit whose result is
"success" but which has no entry in the synergy habits mapping hits the
unguarded lookup `synergy[...]["habits"][habit]["streak"]`, modelled as
`none` (the raised `KeyError`), aborting `apply_habit_rewards`; the
streak-update helper itself returns `false` harmlessly for the same
habit. -/
theorem habit_reward_keyerror :
    processHabit ⟨[("workout", 10)], [(5, 20)]⟩ [] "workout" "success" = none ∧
    applyHabitRewards ⟨[], none, none⟩ ⟨[("workout", 10)], [(5, 20)]⟩ []
      [("workout", "success")] [] = none ∧
    updateHabitStreakInSynergy [] "workout" true = ([], false) := by
  refine ⟨by decide, by decide, rfl⟩

/-- C3, evaluated at the failing input: at health 95/100 with requested
`{health: +10}` and the default overflow policy, the returned bundle's
health delta is the requested +10 while the character's health actually
changed by -75 (95 → 20): `apply_stat_changes` returns the requested
delta, not the actual post-overflow change its docstring promises. -/
theorem delta_applied_is_requested_not_actual :
    (applyStatChanges ⟨[], none, none⟩
        ⟨"Tyler", 1, "Novice", 0, none, 95, 100, 50, 100, []⟩
        ⟨none, some 10, none, []⟩).2.health = 10 ∧
    (applyStatChanges ⟨[], none, none⟩
        ⟨"Tyler", 1, "Novice", 0, none, 95, 100, 50, 100, []⟩
        ⟨none, some 10, none, []⟩).1.currentHealth = 20 ∧
    (applyStatChanges ⟨[], none, none⟩
        ⟨"Tyler", 1, "Novice", 0, none, 95, 100, 50, 100, []⟩
        ⟨none, some 10, none, []⟩).1.currentHealth - 95 ≠
      (applyStatChanges ⟨[], none, none⟩
        ⟨"Tyler", 1, "Novice", 0, none, 95, 100, 50, 100, []⟩
        ⟨none, some 10, none, []⟩).2.health := by
  refine ⟨rfl, rfl, by decide⟩

/-- C1 counterexample: with max_health 50, current_health 45 and the
default policy, applying `{health: +10}` resets current_health to the raw
configured value 20, not to the overflow reset percentage of max_health
(20% of 50 = 10). -/
theorem overflow_reset_not_percentage_of_max :
    (applyStatChanges ⟨[], none, none⟩
        ⟨"Tyler", 1, "Novice", 0, none, 45, 50, 0, 100, []⟩
        ⟨none, some 10, none, []⟩).1.currentHealth = 20 ∧
    (20 : Int) * 50 / 100 = 10 ∧
    (applyStatChanges ⟨[], none, none⟩
        ⟨"Tyler", 1, "Novice", 0, none, 45, 50, 0, 100, []⟩
        ⟨none, some 10, none, []⟩).1.currentHealth ≠ (20 : Int) * 50 / 100 := by
  refine ⟨rfl, by decide, by decide⟩

theorem applyHealthPhase_preserves_progress (rules : XpRules) (c : Character)
    (changes : DeltaRequest) :
    (applyHealthPhase rules c changes).1.currentXp = c.currentXp ∧
    (applyHealthPhase rules c changes).1.level = c.level ∧
    (applyHealthPhase rules c changes).1.title = c.title ∧
    (applyHealthPhase rules c changes).1.xpToNextLevel = c.xpToNextLevel ∧
    (applyHealthPhase rules c changes).1.abilities = c.abilities ∧
    (applyHealthPhase rules c changes).1.maxHealth = c.maxHealth ∧
    (applyHealthPhase rules c changes).1.maxEnergy = c.maxEnergy := by
  rcases applyHealthPhase_cases rules c changes with ⟨_, heq⟩ | ⟨w, _, _, hcase⟩
  · rw [heq]
    exact ⟨rfl, rfl, rfl, rfl, rfl, rfl, rfl⟩
  · rcases hcase with ⟨_, heq⟩ | ⟨_, heq⟩ <;> rw [heq] <;>
      exact ⟨rfl, rfl, rfl, rfl, rfl, rfl, rfl⟩

theorem applyEnergyPhase_preserves_progress (rules : XpRules) (c : Character)
    (changes : DeltaRequest) :
    (applyEnergyPhase rules c changes).1.currentXp = c.currentXp ∧
    (applyEnergyPhase rules c changes).1.level = c.level ∧
    (applyEnergyPhase rules c changes).1.title = c.title ∧
    (applyEnergyPhase rules c changes).1.xpToNextLevel = c.xpToNextLevel ∧
    (applyEnergyPhase rules c changes).1.abilities = c.abilities ∧
    (applyEnergyPhase rules c changes).1.maxHealth = c.maxHealth ∧
    (applyEnergyPhase rules c changes).1.maxEnergy = c.maxEnergy := by
  rcases applyEnergyPhase_cases rules c changes with ⟨_, heq⟩ | ⟨w, _, _, hcase⟩
  · rw [heq]
    exact ⟨rfl, rfl, rfl, rfl, rfl, rfl, rfl⟩
  · rcases hcase with ⟨_, heq⟩ | ⟨_, heq⟩ <;> rw [heq] <;>
      exact ⟨rfl, rfl, rfl, rfl, rfl, rfl, rfl⟩

/-- C1 (amended): for every character and requested delta with a nonzero
health change (and no requested energy change), if the resulting
current_health is at least max_health, `apply_stat_changes` resets
current_health to the configured overflow reset value taken as an
absolute amount (the raw `overflow_reset_percentage` number, default 20)
— not that percentage of max_health — and adds exactly the overflow
bonus amount (default 10) to current_energy, recording it in the energy
delta, regardless of how far over max_health the raw sum was. -/
theorem health_overflow_reset_and_bonus (rules : XpRules) (c : Character)
    (changes : DeltaRequest) (v : Int)
    (hh : changes.health = some v) (hv : v ≠ 0)
    (he : changes.energy.getD 0 = 0)
    (hover : c.maxHealth ≤ c.currentHealth + v) :
    (applyStatChanges rules c changes).1.currentHealth = rules.overflowResetPct.getD 20 ∧
    (applyStatChanges rules c changes).1.currentEnergy =
      c.currentEnergy + rules.overflowBonus.getD 10 ∧
    (applyStatChanges rules c changes).2.energy = rules.overflowBonus.getD 10 := by
  obtain ⟨hph, hpmh, hpe, _, _⟩ := applyXpPhase_preserves rules c changes
  rcases applyHealthPhase_cases rules (applyXpPhase rules c changes).1 changes with
    ⟨hz, _⟩ | ⟨w, hw, hwne, hcase⟩
  · rw [hh] at hz; simp at hz; exact absurd hz hv
  · rw [hh] at hw
    injection hw with hw
    subst hw
    rcases hcase with ⟨hlt, _⟩ | ⟨hge, heq⟩
    · rw [hph, hpmh] at hlt; omega
    · rcases applyEnergyPhase_cases rules
        ({ (applyXpPhase rules c changes).1 with
           currentHealth := rules.overflowResetPct.getD 20,
           currentEnergy := (applyXpPhase rules c changes).1.currentEnergy +
             rules.overflowBonus.getD 10 }) changes with ⟨_, heq2⟩ | ⟨w2, hw2, hw2ne, _⟩
      · obtain ⟨_, _, _, _, hah, _, hae, _⟩ := applyAbilities_preserves changes.abilities
          ({ (applyXpPhase rules c changes).1 with
             currentHealth := rules.overflowResetPct.getD 20,
             currentEnergy := (applyXpPhase rules c changes).1.currentEnergy +
               rules.overflowBonus.getD 10 })
        rw [applyStatChanges_eq]
        refine ⟨?_, ?_, ?_⟩
        · simp only [heq, heq2]
          rw [hah]
        · simp only [heq, heq2]
          rw [hae]
          simp [hpe]
        · simp only [heq, heq2]
          omega
      · rw [hw2] at he; simp at he; exact absurd he hw2ne

theorem health_overflow_reset_and_bonus_witness :
    (applyStatChanges ⟨[], none, none⟩
        ⟨"Tyler", 1, "Novice", 0, none, 95, 100, 50, 100, []⟩
        ⟨none, some 10, none, []⟩).1.currentEnergy = 60 := by
  have h := health_overflow_reset_and_bonus ⟨[], none, none⟩
      ⟨"Tyler", 1, "Novice", 0, none, 95, 100, 50, 100, []⟩
      ⟨none, some 10, none, []⟩ 10 rfl (by decide) (by decide) (by decide)
  exact h.2.1

theorem tdiv_eq_fdiv_of_nonneg (a : Int) (h : 0 ≤ a) : a.tdiv 100 = a.fdiv 100 := by
  obtain ⟨n, rfl⟩ := Int.eq_ofNat_of_zero_le h
  cases n <;> rfl

/-- C6: when the missed-checkin penalty fires, each ability is reduced by
exactly max(1, floor(value·|percent|/100)) and then floored at 0, and
xp, health, energy are clamped at a floor of 0, bypassing the overflow
logic; in particular an ability at 3 with percent -2 becomes 2, and no
field ever goes below 0 even when the penalty magnitude exceeds the
current value. -/
theorem penalty_floor_and_ability_reduction (pr : PenaltyRules) (c : Character)
    (habil : ∀ p ∈ c.abilities, 0 ≤ p.2) :
    (applyPenaltyToChar pr c).abilities =
      c.abilities.map (fun p =>
        (p.1, max 0 (p.2 - max 1 ((p.2 * |pr.abilitiesPercent.getD (-2)|).fdiv 100)))) ∧
    0 ≤ (applyPenaltyToChar pr c).currentXp ∧
    0 ≤ (applyPenaltyToChar pr c).currentHealth ∧
    0 ≤ (applyPenaltyToChar pr c).currentEnergy ∧
    (∀ p ∈ (applyPenaltyToChar pr c).abilities, 0 ≤ p.2) ∧
    (applyPenaltyToChar ⟨none, none, none, none, some (-2)⟩
        ⟨"Kei", 1, "Monk", 0, none, 10, 100, 10, 100, [("focus", 3)]⟩).abilities =
      [("focus", 2)] := by
  refine ⟨?_, le_max_left _ _, le_max_left _ _, le_max_left _ _, ?_, by decide⟩
  · show c.abilities.map _ = c.abilities.map _
    refine List.map_congr_left ?_
    intro p hp
    have hnn : 0 ≤ p.2 * |pr.abilitiesPercent.getD (-2)| :=
      mul_nonneg (habil p hp) (abs_nonneg _)
    rw [tdiv_eq_fdiv_of_nonneg _ hnn]
  · intro p hp
    show 0 ≤ p.2
    rcases List.mem_map.mp hp with ⟨q, _, rfl⟩
    exact le_max_left _ _

theorem penalty_floor_and_ability_reduction_witness :
    0 ≤ (applyPenaltyToChar ⟨none, none, none, none, none⟩
      ⟨"Tyler", 1, "Novice", 3, none, 2, 100, 1, 100, [("strength", 3)]⟩).currentXp := by
  exact (penalty_floor_and_ability_reduction ⟨none, none, none, none, none⟩
    ⟨"Tyler", 1, "Novice", 3, none, 2, 100, 1, 100, [("strength", 3)]⟩ (by decide)).2.1

theorem levelCascade_some_eval (rules : XpRules) (p : LevelProgress) (tv : Nat) :
    levelCascade rules p (some tv) =
      if tv ≠ 0 ∧ (tv : Int) ≤ p.currentXp then
        levelCascade rules
          { currentXp := p.currentXp - (tv : Int), level := p.level + 1,
            title := (lookupLevel rules (p.level + 1)).title.getD p.title,
            xpToNextLevel := (lookupLevel rules (p.level + 1)).xpToNextLevel }
          (lookupLevel rules (p.level + 1)).xpToNextLevel
      else p := by
  by_cases h : tv ≠ 0 ∧ (tv : Int) ≤ p.currentXp
  · rw [if_pos h]
    exact levelCascade_step rules p tv h.1 h.2
  · rw [if_neg h]
    push_neg at h
    rcases eq_or_ne tv 0 with h0 | h0
    · exact levelCascade_stop rules p tv (Or.inl h0)
    · exact levelCascade_stop rules p tv (Or.inr (by have := h h0; omega))

/-- C5: for every positive requested xp, `apply_stat_changes` adds the xp
to current_xp and then cascades: while the level table defines a nonzero
`xp_to_next_level` for the current level and current_xp reaches it, the
threshold is subtracted, the level incremented, and title /
next-threshold replaced from the new level's entry, possibly over
multiple levels in one call; in particular a character at level 1 with
current_xp 0 under table {1: 100/"Novice", 2: 250/"Adept"} given
{xp: 120} ends at level 2, title "Adept", current_xp 20. -/
theorem xp_levelup_cascade (rules : XpRules) (c : Character)
    (changes : DeltaRequest) (v : Int) (hx : changes.xp = some v) (hv : 0 < v) :
    ((applyStatChanges rules c changes).1.currentXp =
        (levelCascade rules ⟨c.currentXp + v, c.level, c.title, c.xpToNextLevel⟩
          (lookupLevel rules c.level).xpToNextLevel).currentXp ∧
      (applyStatChanges rules c changes).1.level =
        (levelCascade rules ⟨c.currentXp + v, c.level, c.title, c.xpToNextLevel⟩
          (lookupLevel rules c.level).xpToNextLevel).level ∧
      (applyStatChanges rules c changes).1.title =
        (levelCascade rules ⟨c.currentXp + v, c.level, c.title, c.xpToNextLevel⟩
          (lookupLevel rules c.level).xpToNextLevel).title ∧
      (applyStatChanges rules c changes).2.xp = v) ∧
    (∀ p : LevelProgress, levelCascade rules p none = p) ∧
    (∀ (p : LevelProgress) (tv : Nat), tv ≠ 0 → (tv : Int) ≤ p.currentXp →
      levelCascade rules p (some tv) =
        levelCascade rules
          { currentXp := p.currentXp - (tv : Int),
            level := p.level + 1,
            title := (lookupLevel rules (p.level + 1)).title.getD p.title,
            xpToNextLevel := (lookupLevel rules (p.level + 1)).xpToNextLevel }
          (lookupLevel rules (p.level + 1)).xpToNextLevel) ∧
    (∀ (p : LevelProgress) (tv : Nat), tv = 0 ∨ p.currentXp < (tv : Int) →
      levelCascade rules p (some tv) = p) ∧
    ((applyStatChanges
        ⟨[(1, ⟨some 100, some "Novice"⟩), (2, ⟨some 250, some "Adept"⟩)], none, none⟩
        ⟨"Tyler", 1, "Novice", 0, some 100, 50, 100, 50, 100, []⟩
        ⟨some 120, none, none, []⟩).1.level = 2 ∧
      (applyStatChanges
        ⟨[(1, ⟨some 100, some "Novice"⟩), (2, ⟨some 250, some "Adept"⟩)], none, none⟩
        ⟨"Tyler", 1, "Novice", 0, some 100, 50, 100, 50, 100, []⟩
        ⟨some 120, none, none, []⟩).1.title = "Adept" ∧
      (applyStatChanges
        ⟨[(1, ⟨some 100, some "Novice"⟩), (2, ⟨some 250, some "Adept"⟩)], none, none⟩
        ⟨"Tyler", 1, "Novice", 0, some 100, 50, 100, 50, 100, []⟩
        ⟨some 120, none, none, []⟩).1.currentXp = 20) := by
  refine ⟨?_, levelCascade_none rules, levelCascade_step rules, levelCascade_stop rules,
    ?_, ?_, ?_⟩
  · obtain ⟨hx1, hx2, hx3, hx4⟩ :=
      applyXpPhase_progress rules c changes v hx (by omega)
    obtain ⟨hh1, hh2, hh3, _, _, _, _⟩ :=
      applyHealthPhase_preserves_progress rules (applyXpPhase rules c changes).1 changes
    obtain ⟨he1, he2, he3, _, _, _, _⟩ :=
      applyEnergyPhase_preserves_progress rules
        (applyHealthPhase rules (applyXpPhase rules c changes).1 changes).1 changes
    obtain ⟨ha1, ha2, ha3, _, _, _, _, _⟩ :=
      applyAbilities_preserves changes.abilities
        (applyEnergyPhase rules
          (applyHealthPhase rules (applyXpPhase rules c changes).1 changes).1 changes).1
    rw [applyStatChanges_eq]
    exact ⟨ha1.trans (he1.trans (hh1.trans hx1)),
           ha2.trans (he2.trans (hh2.trans hx2)),
           ha3.trans (he3.trans (hh3.trans hx3)), hx4⟩
  · simp +decide [applyStatChanges_eq, applyXpPhase, applyHealthPhase, applyEnergyPhase,
      applyAbilities, Character.withProgress, levelCascade_some_eval, levelCascade_none,
      lookupLevel, lookupNat]
  · simp +decide [applyStatChanges_eq, applyXpPhase, applyHealthPhase, applyEnergyPhase,
      applyAbilities, Character.withProgress, levelCascade_some_eval, levelCascade_none,
      lookupLevel, lookupNat]
  · simp +decide [applyStatChanges_eq, applyXpPhase, applyHealthPhase, applyEnergyPhase,
      applyAbilities, Character.withProgress, levelCascade_some_eval, levelCascade_none,
      lookupLevel, lookupNat]

theorem xp_levelup_cascade_witness :
    (applyStatChanges
      ⟨[(1, ⟨some 100, some "Novice"⟩), (2, ⟨some 250, some "Adept"⟩)], none, none⟩
      ⟨"Tyler", 1, "Novice", 0, some 100, 50, 100, 50, 100, []⟩
      ⟨some 120, none, none, []⟩).2.xp = 120 := by
  exact (xp_levelup_cascade
    ⟨[(1, ⟨some 100, some "Novice"⟩), (2, ⟨some 250, some "Adept"⟩)], none, none⟩
    ⟨"Tyler", 1, "Novice", 0, some 100, 50, 100, 50, 100, []⟩
    ⟨some 120, none, none, []⟩ 120 rfl (by decide)).1.2.2.2

theorem updateHabitStreakInSynergy_found (habits : List (String × HabitState))
    (habitName : String) (h0 : HabitState) (success : Bool)
    (hfound : lookupStr habits habitName = some h0) :
    updateHabitStreakInSynergy habits habitName success =
      if success then
        (setStr habits habitName
          { h0 with
              streak := h0.streak + 1
              totalSuccess := h0.totalSuccess + 1
              bestStreak :=
                if h0.bestStreak < h0.streak + 1 then h0.streak + 1 else h0.bestStreak },
         true)
      else
        (setStr habits habitName
          { h0 with streak := 0, totalFailures := h0.totalFailures + 1 }, false) := by
  simp only [updateHabitStreakInSynergy, hfound]

/-- C7: for every habit present in the synergy habits mapping and every
milestone length N in the milestone table, the milestone bonus XP is
added to the check-in's running total exactly once, on the check-in
where the habit's streak transitions from N-1 to N: processing one
result for the habit fires the milestone event for N if and only if the
result is a success and N equals the incremented streak, so it does not
fire at streak N+1 (unless N+1 is itself a milestone) and never
retroactively for skipped lengths; the XP contributed is the per-success
reward plus the bonus exactly when the milestone fires. -/
theorem milestone_fires_on_transition (rr : RewardRules)
    (habits : List (String × HabitState)) (habitName result : String)
    (h0 : HabitState) (hfound : lookupStr habits habitName = some h0)
    (N bonus : Nat) :
    ∃ habits1 xp ms,
      processHabit rr habits habitName result = some (habits1, xp, ms) ∧
      ((habitName, N, bonus) ∈ ms ↔
        (pyLower result = "success" ∧ N = h0.streak + 1 ∧
          lookupNat rr.milestones N = some bonus)) ∧
      xp = (if pyLower result = "success"
            then (lookupStr rr.habitXp habitName).getD 0 +
              (lookupNat rr.milestones (h0.streak + 1)).getD 0
            else 0) := by
  by_cases hs : pyLower result = "success"
  · have hupd := updateHabitStreakInSynergy_found habits habitName h0 true hfound
    rw [if_pos rfl] at hupd
    have hlook := lookupStr_setStr_self habits habitName
      ({ h0 with
           streak := h0.streak + 1
           totalSuccess := h0.totalSuccess + 1
           bestStreak :=
             if h0.bestStreak < h0.streak + 1 then h0.streak + 1 else h0.bestStreak } :
        HabitState) hfound
    cases hm : lookupNat rr.milestones (h0.streak + 1) with
    | some b0 =>
      refine ⟨setStr habits habitName
          { h0 with
              streak := h0.streak + 1
              totalSuccess := h0.totalSuccess + 1
              bestStreak :=
                if h0.bestStreak < h0.streak + 1 then h0.streak + 1 else h0.bestStreak },
        (lookupStr rr.habitXp habitName).getD 0 + b0,
        [(habitName, h0.streak + 1, b0)], ?_, ?_, ?_⟩
      · simp [processHabit, hupd, hlook, hm, hs]
      · simp only [List.mem_singleton, Prod.mk.injEq, hs, eq_self_iff_true, true_and]
        constructor
        · rintro ⟨hN, hb⟩
          subst hN
          subst hb
          exact ⟨rfl, hm⟩
        · rintro ⟨hN, hb⟩
          subst hN
          rw [hm] at hb
          injection hb with hb
          exact ⟨rfl, hb.symm⟩
      · simp [hs, hm]
    | none =>
      refine ⟨setStr habits habitName
          { h0 with
              streak := h0.streak + 1
              totalSuccess := h0.totalSuccess + 1
              bestStreak :=
                if h0.bestStreak < h0.streak + 1 then h0.streak + 1 else h0.bestStreak },
        (lookupStr rr.habitXp habitName).getD 0,
        [], ?_, ?_, ?_⟩
      · simp [processHabit, hupd, hlook, hm, hs]
      · simp only [List.not_mem_nil, false_iff, hs, eq_self_iff_true, true_and]
        rintro ⟨hN, hb⟩
        subst hN
        rw [hm] at hb
        exact Option.noConfusion hb
      · simp [hs, hm]
  · have hupd := updateHabitStreakInSynergy_found habits habitName h0 false hfound
    rw [if_neg (by simp)] at hupd
    refine ⟨setStr habits habitName
        { h0 with streak := 0, totalFailures := h0.totalFailures + 1 },
      0, [], ?_, ?_, ?_⟩
    · simp [processHabit, hupd, hs]
    · simp only [List.not_mem_nil, false_iff]
      rintro ⟨hcon, -, -⟩
      exact hs hcon
    · simp [hs]

theorem milestone_fires_on_transition_witness :
    ∃ habits1 xp ms,
      processHabit ⟨[("workout", 10)], [(5, 20)]⟩ [("workout", ⟨4, 4, 10, 2⟩)]
        "workout" "success" = some (habits1, xp, ms) ∧ xp = 30 := by
  obtain ⟨habits1, xp, ms, heq, hiff, hxp⟩ :=
    milestone_fires_on_transition ⟨[("workout", 10)], [(5, 20)]⟩
      [("workout", ⟨4, 4, 10, 2⟩)] "workout" "success" ⟨4, 4, 10, 2⟩ (by decide) 5 20
  refine ⟨habits1, xp, ms, heq, ?_⟩
  rw [hxp]
  decide

/-- C2 counterexample: mission failure passes the mission's `on_failure`
bundle through `apply_stat_changes`, which does not clamp at 0 — a
character at health 2 given `{health: -5}` ends at current_health -3,
violating the claimed invariant. -/
theorem mission_failure_negative_health :
    (markMissionFailedStats ⟨[], none, none⟩
        ⟨"Tyler", 1, "Novice", 0, none, 2, 100, 50, 100, []⟩
        ⟨none, some (-5), none, []⟩).1.currentHealth = -3 ∧
    (markMissionFailedStats ⟨[], none, none⟩
        ⟨"Tyler", 1, "Novice", 0, none, 2, 100, 50, 100, []⟩
        ⟨none, some (-5), none, []⟩).1.currentHealth < 0 := by
  exact ⟨rfl, by decide⟩

theorem applyXpPhase_noop (rules : XpRules) (c : Character) (changes : DeltaRequest)
    (h : changes.xp.getD 0 = 0) : applyXpPhase rules c changes = (c, 0) := by
  rcases hx : changes.xp with _ | v
  · simp [applyXpPhase, hx]
  · rw [hx] at h
    simp only [Option.getD_some] at h
    simp [applyXpPhase, hx, h]

theorem applyXpPhase_xp_nonneg (rules : XpRules) (c : Character) (changes : DeltaRequest)
    (h : 0 ≤ c.currentXp + changes.xp.getD 0) :
    0 ≤ (applyXpPhase rules c changes).1.currentXp := by
  rcases hx : changes.xp with _ | v
  · rw [applyXpPhase_noop rules c changes (by simp [hx])]
    rw [hx] at h
    simpa using h
  · by_cases hv : v = 0
    · rw [applyXpPhase_noop rules c changes (by simp [hx, hv])]
      rw [hx, hv] at h
      simpa using h
    · obtain ⟨h1, _, _, _⟩ := applyXpPhase_progress rules c changes v hx hv
      rw [h1]
      refine levelCascade_xp_nonneg _ _ _ ?_
      show 0 ≤ c.currentXp + v
      rw [hx] at h
      simpa using h

theorem applyAbilities_nonneg :
    ∀ (l : List (String × Int)) (c : Character),
      (l.map Prod.fst).Nodup →
      (∀ pr ∈ l, ∀ cur, lookupStr c.abilities pr.1 = some cur → 0 ≤ cur + pr.2) →
      (∀ p ∈ c.abilities, 0 ≤ p.2) →
      ∀ p ∈ (applyAbilities c l).1.abilities, 0 ≤ p.2 := by
  intro l
  induction l with
  | nil => intro c _ _ hc; simpa [applyAbilities] using hc
  | cons hd tl ih =>
    intro c hnodup hreq hc
    obtain ⟨n, v⟩ := hd
    have hnodup' : (tl.map Prod.fst).Nodup := (List.nodup_cons.mp hnodup).2
    have hnmem : n ∉ tl.map Prod.fst := (List.nodup_cons.mp hnodup).1
    by_cases hv : v = 0
    · intro p hp
      refine ih c hnodup' ?_ hc p (by simpa [applyAbilities, hv] using hp)
      intro pr hpr cur hcur
      exact hreq pr (List.mem_cons_of_mem _ hpr) cur hcur
    · cases hl : lookupStr c.abilities n with
      | none =>
        intro p hp
        refine ih c hnodup' ?_ hc p (by simpa [applyAbilities, hv, hl] using hp)
        intro pr hpr cur hcur
        exact hreq pr (List.mem_cons_of_mem _ hpr) cur hcur
      | some cur =>
        intro p hp
        have hcv : 0 ≤ cur + v := hreq (n, v) (List.mem_cons_self _ _) cur hl
        have hc' : ∀ q ∈ (setStr c.abilities n (cur + v)), 0 ≤ q.2 := by
          intro q hq
          rcases mem_setStr _ _ _ _ hq with hq1 | hq1
          · rw [hq1]; exact hcv
          · exact hc q hq1
        refine ih { c with abilities := setStr c.abilities n (cur + v) }
          hnodup' ?_ hc' p (by simpa [applyAbilities, hv, hl] using hp)
        intro pr hpr cur' hcur'
        have hprne : pr.1 ≠ n := by
          intro hcontra
          exact hnmem (hcontra ▸ List.mem_map_of_mem Prod.fst hpr)
        have : lookupStr c.abilities pr.1 = some cur' := by
          rw [← lookupStr_setStr_ne c.abilities n pr.1 (cur + v) hprne]
          exact hcur'
        exact hreq pr (List.mem_cons_of_mem _ hpr) cur' this

/-- C2 (amended): after the missed-checkin penalty (which clamps at 0)
and after habit rewards (which only add xp), current_xp, current_health,
current_energy and every ability score are non-negative for all inputs;
mission completion and failure apply deltas through
`apply_stat_changes`, which performs no clamping, so there
non-negativity holds only when no requested negative delta's magnitude
exceeds the corresponding current value (and the overflow policy values
are non-negative). -/
theorem engine_nonnegativity :
    (∀ (pr : PenaltyRules) (c : Character),
      0 ≤ (applyPenaltyToChar pr c).currentXp ∧
      0 ≤ (applyPenaltyToChar pr c).currentHealth ∧
      0 ≤ (applyPenaltyToChar pr c).currentEnergy ∧
      ∀ p ∈ (applyPenaltyToChar pr c).abilities, 0 ≤ p.2) ∧
    (∀ (rules : XpRules) (total : Nat) (c : Character), 0 ≤ c.currentXp →
      0 ≤ (applyHabitXpToChar rules total c).currentXp) ∧
    (∀ (rules : XpRules) (c : Character) (changes : DeltaRequest),
      0 ≤ c.currentXp + changes.xp.getD 0 →
      0 ≤ c.currentHealth + changes.health.getD 0 →
      0 ≤ c.currentEnergy + changes.energy.getD 0 →
      0 ≤ rules.overflowResetPct.getD 20 →
      0 ≤ rules.overflowBonus.getD 10 →
      (changes.abilities.map Prod.fst).Nodup →
      (∀ pr ∈ changes.abilities, ∀ cur,
        lookupStr c.abilities pr.1 = some cur → 0 ≤ cur + pr.2) →
      (∀ p ∈ c.abilities, 0 ≤ p.2) →
      0 ≤ (applyStatChanges rules c changes).1.currentXp ∧
      0 ≤ (applyStatChanges rules c changes).1.currentHealth ∧
      0 ≤ (applyStatChanges rules c changes).1.currentEnergy ∧
      ∀ p ∈ (applyStatChanges rules c changes).1.abilities, 0 ≤ p.2) := by
  refine ⟨?_, ?_, ?_⟩
  · intro pr c
    refine ⟨le_max_left _ _, le_max_left _ _, le_max_left _ _, ?_⟩
    intro p hp
    rcases List.mem_map.mp hp with ⟨q, _, rfl⟩
    exact le_max_left _ _
  · intro rules total c hxp
    refine levelCascade_xp_nonneg _ _ _ ?_
    show (0:Int) ≤ c.currentXp + (total : Int)
    omega
  · intro rules c changes hxp hhe hen hrp hob hnodup hreq habil
    have hc1xp : 0 ≤ (applyXpPhase rules c changes).1.currentXp :=
      applyXpPhase_xp_nonneg rules c changes hxp
    obtain ⟨hp_h, hp_mh, hp_e, hp_me, hp_ab⟩ := applyXpPhase_preserves rules c changes
    obtain ⟨hq_xp, _, _, _, hq_ab, _, _⟩ :=
      applyHealthPhase_preserves_progress rules (applyXpPhase rules c changes).1 changes
    -- facts about the character after the health phase
    have hc2health : 0 ≤ (applyHealthPhase rules
        (applyXpPhase rules c changes).1 changes).1.currentHealth := by
      rcases applyHealthPhase_cases rules (applyXpPhase rules c changes).1 changes with
        ⟨hz, heq⟩ | ⟨v, hv, hvne, ⟨hlt, heq⟩ | ⟨hge, heq⟩⟩
      · rw [heq]
        rw [hp_h]
        rw [hz] at hhe
        omega
      · rw [heq]
        simp only
        rw [hp_h]
        rw [hv] at hhe
        simp only [Option.getD_some] at hhe
        omega
      · rw [heq]
        exact hrp
    have hc2energy : ∃ b : Int, 0 ≤ b ∧
        (applyHealthPhase rules (applyXpPhase rules c changes).1 changes).1.currentEnergy =
          c.currentEnergy + b := by
      rcases applyHealthPhase_cases rules (applyXpPhase rules c changes).1 changes with
        ⟨hz, heq⟩ | ⟨v, hv, hvne, ⟨hlt, heq⟩ | ⟨hge, heq⟩⟩
      · exact ⟨0, le_refl _, by rw [heq, hp_e]; omega⟩
      · exact ⟨0, le_refl _, by rw [heq]; simp only; rw [hp_e]; omega⟩
      · exact ⟨rules.overflowBonus.getD 10, hob, by rw [heq]; simp only; rw [hp_e]⟩
    -- facts about the character after the energy phase
    obtain ⟨hr_xp, _, _, _, hr_ab, _, _⟩ :=
      applyEnergyPhase_preserves_progress rules
        (applyHealthPhase rules (applyXpPhase rules c changes).1 changes).1 changes
    have hc3health : 0 ≤ (applyEnergyPhase rules
        (applyHealthPhase rules (applyXpPhase rules c changes).1 changes).1
        changes).1.currentHealth := by
      rcases applyEnergyPhase_cases rules
        (applyHealthPhase rules (applyXpPhase rules c changes).1 changes).1 changes with
        ⟨hz, heq⟩ | ⟨v, hv, hvne, ⟨hlt, heq⟩ | ⟨hge, heq⟩⟩
      · rw [heq]; exact hc2health
      · rw [heq]; exact hc2health
      · rw [heq]
        simp only
        omega
    have hc3energy : 0 ≤ (applyEnergyPhase rules
        (applyHealthPhase rules (applyXpPhase rules c changes).1 changes).1
        changes).1.currentEnergy := by
      obtain ⟨b, hb, hbe⟩ := hc2energy
      rcases applyEnergyPhase_cases rules
        (applyHealthPhase rules (applyXpPhase rules c changes).1 changes).1 changes with
        ⟨hz, heq⟩ | ⟨v, hv, hvne, ⟨hlt, heq⟩ | ⟨hge, heq⟩⟩
      · rw [heq, hbe]
        rw [hz] at hen
        omega
      · rw [heq]
        simp only
        rw [hbe]
        rw [hv] at hen
        simp only [Option.getD_some] at hen
        omega
      · rw [heq]
        exact hrp
    -- assemble through the ability phase
    obtain ⟨ha_xp, _, _, _, ha_h, _, ha_e, _⟩ :=
      applyAbilities_preserves changes.abilities
        (applyEnergyPhase rules
          (applyHealthPhase rules (applyXpPhase rules c changes).1 changes).1 changes).1
    have habl : (applyEnergyPhase rules
        (applyHealthPhase rules (applyXpPhase rules c changes).1 changes).1
        changes).1.abilities = c.abilities := by
      rw [hr_ab, hq_ab, hp_ab]
    rw [applyStatChanges_eq]
    refine ⟨?_, ?_, ?_, ?_⟩
    · rw [ha_xp, hr_xp, hq_xp]
      exact hc1xp
    · rw [ha_h]
      exact hc3health
    · rw [ha_e]
      exact hc3energy
    · refine applyAbilities_nonneg changes.abilities _ hnodup ?_ ?_
      · intro pr hpr cur hcur
        rw [habl] at hcur
        exact hreq pr hpr cur hcur
      · intro p hp
        rw [habl] at hp
        exact habil p hp

theorem engine_nonnegativity_witness :
    0 ≤ (applyStatChanges ⟨[], none, none⟩
      ⟨"Tyler", 1, "Novice", 5, none, 5, 100, 5, 100, [("strength", 3)]⟩
      ⟨some (-5), some (-5), some (-5), [("strength", -3)]⟩).1.currentHealth := by
  refine (engine_nonnegativity.2.2 ⟨[], none, none⟩
    ⟨"Tyler", 1, "Novice", 5, none, 5, 100, 5, 100, [("strength", 3)]⟩
    ⟨some (-5), some (-5), some (-5), [("strength", -3)]⟩
    (by decide) (by decide) (by decide) (by decide) (by decide) (by decide)
    ?_ (by decide)).2.1
  intro pr hpr cur hcur
  simp only [List.mem_singleton] at hpr
  subst hpr
  simp only [lookupStr, if_pos rfl] at hcur
  injection hcur with hcur
  subst hcur
  decide

theorem synergyCascade_none (sr : SynergyRules) (s : SynergyState) (level : Nat)
    (totalXp : Int) : synergyCascade sr s level totalXp none = s := by
  rw [synergyCascade]

theorem synergyCascade_stop (sr : SynergyRules) (s : SynergyState) (level : Nat)
    (totalXp : Int) (tv : Nat) (h : tv = 0 ∨ totalXp < (tv : Int)) :
    synergyCascade sr s level totalXp (some tv) = s := by
  rw [synergyCascade, dif_neg]
  rintro ⟨h0, hle⟩
  rcases h with h | h
  · exact h0 h
  · omega

theorem synergyCascade_step (sr : SynergyRules) (s : SynergyState) (level : Nat)
    (totalXp : Int) (tv : Nat) (h0 : tv ≠ 0) (hle : (tv : Int) ≤ totalXp) :
    synergyCascade sr s level totalXp (some tv) =
      synergyCascade sr
        { s with level := level + 1,
                 chapter := (lookupSynLevel sr (level + 1)).chapter.getD "UNKNOWN",
                 description := (lookupSynLevel sr (level + 1)).description.getD "",
                 xpToNextLevel := (lookupSynLevel sr (level + 1)).xpToNextLevel,
                 currentXp := totalXp - (tv : Int) }
        (level + 1) (totalXp - (tv : Int))
        (lookupSynLevel sr (level + 1)).xpToNextLevel := by
  rw [synergyCascade, dif_pos ⟨h0, hle⟩]

theorem synergyCascade_some_eval (sr : SynergyRules) (s : SynergyState) (level : Nat)
    (totalXp : Int) (tv : Nat) :
    synergyCascade sr s level totalXp (some tv) =
      if tv ≠ 0 ∧ (tv : Int) ≤ totalXp then
        synergyCascade sr
          { s with level := level + 1,
                   chapter := (lookupSynLevel sr (level + 1)).chapter.getD "UNKNOWN",
                   description := (lookupSynLevel sr (level + 1)).description.getD "",
                   xpToNextLevel := (lookupSynLevel sr (level + 1)).xpToNextLevel,
                   currentXp := totalXp - (tv : Int) }
          (level + 1) (totalXp - (tv : Int))
          (lookupSynLevel sr (level + 1)).xpToNextLevel
      else s := by
  by_cases h : tv ≠ 0 ∧ (tv : Int) ≤ totalXp
  · rw [if_pos h]
    exact synergyCascade_step sr s level totalXp tv h.1 h.2
  · rw [if_neg h]
    push_neg at h
    rcases eq_or_ne tv 0 with h0 | h0
    · exact synergyCascade_stop sr s level totalXp tv (Or.inl h0)
    · exact synergyCascade_stop sr s level totalXp tv (Or.inr (by have := h h0; omega))

theorem updateSynergy_some (sr : SynergyRules) (tyler mrrobot kei : Character)
    (nc comp : List MissionRec) (lk ul : Nat) (s : SynergyState) :
    updateSynergy (some sr) tyler mrrobot kei nc comp lk ul s =
      { synergyCascade sr
          { s with currentXp := tyler.currentXp + mrrobot.currentXp + kei.currentXp }
          s.level (tyler.currentXp + mrrobot.currentXp + kei.currentXp)
          (lookupSynLevel sr s.level).xpToNextLevel with
        mind := synergyStatOf mrrobot
        body := synergyStatOf tyler
        soul := synergyStatOf kei
        totalSynergy :=
          round2 (synergyStatOf mrrobot + synergyStatOf tyler + synergyStatOf kei)
        missions := countMissions nc comp
        rewardsTotal := lk + ul
        rewardsUnlocked := ul
        rewardsLocked := lk } := rfl

/-- C4 counterexample: with synergy level table {1: 100, 2: 250}, stored
level 1, and character XP totalling 120, the first recomputation levels
up to 2 and stores residual current_xp 20, but an immediate second
recomputation — with no intervening character, mission, or reward
change — re-seeds current_xp with the full sum 120, so the two summaries
differ. -/
theorem synergy_recompute_not_idempotent :
    (updateSynergy
        (some ⟨[(1, ⟨some 100, some "One", some "d1"⟩),
                (2, ⟨some 250, some "Two", some "d2"⟩)]⟩)
        ⟨"Tyler", 1, "Novice", 120, some 100, 95, 100, 50, 100, []⟩
        ⟨"MrRobot", 1, "Novice", 0, some 100, 95, 100, 50, 100, []⟩
        ⟨"Kei", 1, "Novice", 0, some 100, 95, 100, 50, 100, []⟩ [] [] 0 0
        ⟨1, "One", "d1", 0, some 100, 0, 0, 0, 0, ⟨0, 0, 0, 0, 0⟩, 0, 0, 0⟩).currentXp
      = 20 ∧
    (updateSynergy
        (some ⟨[(1, ⟨some 100, some "One", some "d1"⟩),
                (2, ⟨some 250, some "Two", some "d2"⟩)]⟩)
        ⟨"Tyler", 1, "Novice", 120, some 100, 95, 100, 50, 100, []⟩
        ⟨"MrRobot", 1, "Novice", 0, some 100, 95, 100, 50, 100, []⟩
        ⟨"Kei", 1, "Novice", 0, some 100, 95, 100, 50, 100, []⟩ [] [] 0 0
        (updateSynergy
          (some ⟨[(1, ⟨some 100, some "One", some "d1"⟩),
                  (2, ⟨some 250, some "Two", some "d2"⟩)]⟩)
          ⟨"Tyler", 1, "Novice", 120, some 100, 95, 100, 50, 100, []⟩
          ⟨"MrRobot", 1, "Novice", 0, some 100, 95, 100, 50, 100, []⟩
          ⟨"Kei", 1, "Novice", 0, some 100, 95, 100, 50, 100, []⟩ [] [] 0 0
          ⟨1, "One", "d1", 0, some 100, 0, 0, 0, 0, ⟨0, 0, 0, 0, 0⟩, 0, 0, 0⟩)).currentXp
      = 120 ∧
    (20 : Int) ≠ 120 := by
  refine ⟨?_, ?_, by decide⟩ <;>
    simp +decide [updateSynergy_some, synergyCascade_some_eval, synergyCascade_none,
      lookupSynLevel, lookupNat]

/-- C4 (amended): the synergy recomputation is idempotent provided the
first call triggers no synergy level-up — the stored level's threshold
is absent, zero, or above the XP total; when a level-up fires, the
second call re-seeds current_xp with the full XP sum and may cascade
again, so idempotence fails in general. -/
theorem synergy_recompute_idempotent_without_levelup
    (sr : SynergyRules) (tyler mrrobot kei : Character)
    (nc comp : List MissionRec) (lk ul : Nat) (s : SynergyState)
    (hno : ∀ tv, (lookupSynLevel sr s.level).xpToNextLevel = some tv →
      tv = 0 ∨ tyler.currentXp + mrrobot.currentXp + kei.currentXp < (tv : Int)) :
    updateSynergy (some sr) tyler mrrobot kei nc comp lk ul
        (updateSynergy (some sr) tyler mrrobot kei nc comp lk ul s) =
      updateSynergy (some sr) tyler mrrobot kei nc comp lk ul s := by
  have hstop : ∀ (st : SynergyState),
      synergyCascade sr st s.level (tyler.currentXp + mrrobot.currentXp + kei.currentXp)
        (lookupSynLevel sr s.level).xpToNextLevel = st := by
    intro st
    cases ht : (lookupSynLevel sr s.level).xpToNextLevel with
    | none => exact synergyCascade_none sr st s.level _
    | some tv => exact synergyCascade_stop sr st s.level _ tv (hno tv ht)
  simp only [updateSynergy_some]
  rw [hstop]
  simp only
  rw [hstop]

theorem synergy_recompute_idempotent_witness :
    updateSynergy (some ⟨[(1, ⟨some 100, some "One", some "d1"⟩)]⟩)
        ⟨"Tyler", 1, "Novice", 50, some 100, 0, 100, 0, 100, []⟩
        ⟨"MrRobot", 1, "Novice", 0, some 100, 0, 100, 0, 100, []⟩
        ⟨"Kei", 1, "Novice", 0, some 100, 0, 100, 0, 100, []⟩ [] [] 0 0
        (updateSynergy (some ⟨[(1, ⟨some 100, some "One", some "d1"⟩)]⟩)
          ⟨"Tyler", 1, "Novice", 50, some 100, 0, 100, 0, 100, []⟩
          ⟨"MrRobot", 1, "Novice", 0, some 100, 0, 100, 0, 100, []⟩
          ⟨"Kei", 1, "Novice", 0, some 100, 0, 100, 0, 100, []⟩ [] [] 0 0
          ⟨1, "One", "d1", 0, some 100, 0, 0, 0, 0, ⟨0, 0, 0, 0, 0⟩, 0, 0, 0⟩) =
      updateSynergy (some ⟨[(1, ⟨some 100, some "One", some "d1"⟩)]⟩)
        ⟨"Tyler", 1, "Novice", 50, some 100, 0, 100, 0, 100, []⟩
        ⟨"MrRobot", 1, "Novice", 0, some 100, 0, 100, 0, 100, []⟩
        ⟨"Kei", 1, "Novice", 0, some 100, 0, 100, 0, 100, []⟩ [] [] 0 0
        ⟨1, "One", "d1", 0, some 100, 0, 0, 0, 0, ⟨0, 0, 0, 0, 0⟩, 0, 0, 0⟩ := by
  refine synergy_recompute_idempotent_without_levelup _ _ _ _ _ _ _ _ _ ?_
  intro tv htv
  simp [lookupSynLevel, lookupNat] at htv
  right
  show (50 : Int) + 0 + 0 < (tv : Int)
  omega

end FightClub
